import Mathlib

/-!
Verification of the `datatable` repository's specification against its source.

The development shallowly embeds the columnar `DataTable` prototypes of
`src/dev/scratch/src/DataTable/` (DT_col3.ts first class, DT_col4.ts, and the
first class of DT_col5.ts) and, for the reshape engine that is absent from the
source tree, models `melt`/`dcast` from the specification's words.

JavaScript values stored in tables are modelled by `Value` (strings and integer
numbers, plus `null` and `undefined`); JavaScript exceptions are modelled by
`JsError`; a JavaScript object used as a string-keyed dictionary is modelled by
an insertion-ordered association list, with the ECMAScript own-property
enumeration order (array-index keys first, in ascending numeric order, then the
remaining string keys in insertion order) applied where the source calls
`Object.values`.
-/

/-- A JavaScript value as stored in a table cell: a string, an (integer)
number, `null`, or `undefined`. -/
inductive Value where
  | str (s : String)
  | num (n : Int)
  | nullV
  | undefV
deriving DecidableEq, Repr

/-- JavaScript `String(v)` on a `Value`. -/
def toStringJS : Value → String
  | .str s => s
  | .num n => toString n
  | .nullV => "null"
  | .undefV => "undefined"

/-- Element rendering of `Array.prototype.join` (ECMA-262): a `null` or
`undefined` element becomes the empty string (unlike `String(v)`), every
other element is converted with `ToString`. -/
def joinElemStr : Value → String
  | .str s => s
  | .num n => toString n
  | .nullV => ""
  | .undefV => ""

/-- JavaScript `ToNumber` coercion, `none` standing for `NaN`.  Strings are
parsed as integer literals (the empty string coerces to `0`); fractional
number syntax is outside the `Value` model. -/
def jsToNumber : Value → Option Int
  | .num n => some n
  | .nullV => some 0
  | .undefV => none
  | .str s => if s = "" then some 0 else s.toInt?

/-- Numeric comparison of two coerced operands; any `NaN` operand makes the
comparison false. -/
def numLtB (oa ob : Option Int) : Bool :=
  match oa, ob with
  | some x, some y => decide (x < y)
  | _, _ => false

/-- The JavaScript `<` operator on two values: if both operands are strings
they are compared lexicographically, otherwise both are coerced to numbers and
any `NaN` makes the comparison false. -/
def jsLtV : Value → Value → Bool
  | .str x, .str y => decide (x < y)
  | a, b => numLtB (jsToNumber a) (jsToNumber b)

/-- A JavaScript exception: a `TypeError` raised by the runtime (e.g. reading a
property of `undefined`), or an `Error` thrown explicitly with a message. -/
inductive JsError where
  | typeError
  | thrown (msg : String)
deriving DecidableEq, Repr

/-- A row object: an insertion-ordered list of named fields. -/
abbrev RowObj := List (String × Value)

/-- Association-list lookup used to model JavaScript property access
`obj[key]` (first matching key wins; keys are unique in objects built here). -/
def alookup {α : Type} (k : String) : List (String × α) → Option α
  | [] => none
  | (c, v) :: rest => if c = k then some v else alookup k rest

/-- JavaScript property assignment `obj[key] = v` on an insertion-ordered
association list: an existing key keeps its position and is overwritten, a new
key is appended. -/
def setAssoc {α : Type} (cols : List (String × α)) (k : String) (v : α) :
    List (String × α) :=
  if cols.any (fun p => decide (p.1 = k)) then
    cols.map (fun p => if p.1 = k then (k, v) else p)
  else
    cols ++ [(k, v)]

/-- First-occurrence deduplication: the distinct elements of a list in the
order in which they first appear (the key order of a JS `Map` or of the
non-index keys of a JS object). -/
def dedupF {α : Type} [DecidableEq α] : List α → List α
  | [] => []
  | a :: as => a :: (dedupF as).filter (fun b => decide (b ≠ a))

theorem mem_dedupF {α : Type} [DecidableEq α] {a : α} :
    ∀ {l : List α}, a ∈ dedupF l ↔ a ∈ l
  | [] => Iff.rfl
  | x :: l => by
    simp only [dedupF, List.mem_cons, List.mem_filter, decide_eq_true_eq]
    constructor
    · rintro (rfl | ⟨h, _⟩)
      · exact Or.inl rfl
      · exact Or.inr (mem_dedupF.mp h)
    · rintro (rfl | h)
      · exact Or.inl rfl
      · by_cases hx : a = x
        · exact Or.inl hx
        · exact Or.inr ⟨mem_dedupF.mpr h, hx⟩

theorem nodup_dedupF {α : Type} [DecidableEq α] : ∀ (l : List α), (dedupF l).Nodup
  | [] => List.nodup_nil
  | x :: l => by
    simp only [dedupF]
    refine List.Nodup.cons ?_ (List.Nodup.filter _ (nodup_dedupF l))
    intro hx
    exact (of_decide_eq_true (List.mem_filter.mp hx).2) rfl

theorem dedupF_eq_self_of_nodup {α : Type} [DecidableEq α] :
    ∀ {l : List α}, l.Nodup → dedupF l = l
  | [], _ => rfl
  | x :: l, h => by
    simp only [dedupF]
    have hx : x ∉ l := (List.nodup_cons.mp h).1
    have hl := dedupF_eq_self_of_nodup (List.nodup_cons.mp h).2
    rw [hl, List.filter_eq_self.mpr]
    intro b hb
    exact decide_eq_true (fun hbx => hx (hbx ▸ hb))

theorem dedupF_append_singleton {α : Type} [DecidableEq α] (k : α) :
    ∀ (l : List α),
      dedupF (l ++ [k]) = if k ∈ l then dedupF l else dedupF l ++ [k]
  | [] => by simp [dedupF]
  | a :: l => by
    have ih := dedupF_append_singleton k l
    show a :: (dedupF (l ++ [k])).filter (fun b => decide (b ≠ a))
        = if k ∈ a :: l then dedupF (a :: l)
          else dedupF (a :: l) ++ [k]
    rw [ih]
    by_cases hk : k ∈ l
    · simp only [hk, if_true, List.mem_cons, or_true, dedupF]
    · by_cases hka : k = a
      · subst hka
        simp only [hk, if_false, List.mem_cons, true_or, if_true,
          List.filter_append, dedupF]
        have hsing : List.filter (fun b => decide (b ≠ k)) [k] = [] := by
          simp [List.filter]
        rw [hsing, List.append_nil]
      · have hmem : ¬ (k ∈ a :: l) := by
          simp [List.mem_cons, hka, hk]
        simp only [hk, if_false, hmem, List.filter_append, dedupF]
        have hsing : List.filter (fun b => decide (b ≠ a)) [k] = [k] := by
          simp [List.filter, hka]
        rw [hsing, List.cons_append]

/-! ## The columnar `DataTable` (DT_col3.ts first class; DT_col4.ts shares the
same fields and the same `setkey`/`setorder`). -/

/-- The columnar table: `data` models the JS object `this._data` as an
insertion-ordered association of column name to value array, together with
`this._columns`, `this._rowCount` and `this._keys` (a JS `Set`, modelled as
its insertion-ordered list of distinct elements). -/
structure DataTable where
  data : List (String × List Value)
  columns : List String
  rowCount : Nat
  keys : List String
deriving DecidableEq, Repr

/-- The cell `this._data[column][i]`.  For the tables built by this class,
`_columns` always coincides with the keys of `_data`, so the column is
present and the access yields element `i`, or `undefined` past the end. -/
def valueAt (t : DataTable) (c : String) (i : Nat) : Value :=
  match alookup c t.data with
  | some vs => vs.getD i .undefV
  | none => .undefV

/-- Source `getRow(index)`: the row object with one field per column. -/
def getRow (t : DataTable) (i : Nat) : RowObj :=
  t.columns.map (fun c => (c, valueAt t c i))

/-- Source `getRows()`: all rows of the table. -/
def getRowsOf (t : DataTable) : List RowObj :=
  (List.range t.rowCount).map (getRow t)

/-- Shape invariant of the data model (spec section 3): every column has
identical length equal to the row count. -/
def ShapeInv (t : DataTable) : Prop :=
  ∀ p ∈ t.data, p.2.length = t.rowCount

instance : DecidablePred ShapeInv := fun t =>
  inferInstanceAs (Decidable (∀ p ∈ t.data, p.2.length = t.rowCount))

/-- Well-formedness of a table as produced by the constructors: `_columns`
lists exactly the keys of `_data` in order, the shape invariant holds, and
there is at least one column. -/
def WellFormed (t : DataTable) : Prop :=
  t.data.map Prod.fst = t.columns ∧ ShapeInv t ∧ t.columns ≠ []

instance : DecidablePred WellFormed := fun t =>
  inferInstanceAs
    (Decidable (t.data.map Prod.fst = t.columns ∧ ShapeInv t ∧ t.columns ≠ []))

/-- Source `setkey(key)` (DT_col3.ts lines 21-23): `this._keys = new Set(...)`.
It records the key columns and touches nothing else. -/
def setkeyFn (t : DataTable) (ks : List String) : DataTable :=
  { t with keys := dedupF ks }

/-- The key tuple of row `i` restricted to columns `cols`. -/
def keyTuple (t : DataTable) (cols : List String) (i : Nat) : List Value :=
  cols.map (fun c => valueAt t c i)

/-- The comparator body of `setorder` (DT_col3.ts lines 29-35): scan the named
columns and return -1/1 at the first column where the two rows compare
strictly with the JS `<` / `>` operators, else 0. -/
def cmpVals : List Value → List Value → Int
  | a :: as, b :: bs =>
    if jsLtV a b then -1 else if jsLtV b a then 1 else cmpVals as bs
  | _, _ => 0

/-- The sort relation derived from the comparator: row `a` may precede row `b`
when the comparator does not order `b` strictly first. -/
def rowLe (t : DataTable) (cols : List String) (a b : Nat) : Prop :=
  cmpVals (keyTuple t cols a) (keyTuple t cols b) ≤ 0

instance (t : DataTable) (cols : List String) :
    DecidableRel (rowLe t cols) := fun a b =>
  inferInstanceAs
    (Decidable (cmpVals (keyTuple t cols a) (keyTuple t cols b) ≤ 0))

/-- Source `setorder`'s `sortedIndices`: the row positions `0..rowCount-1`
stably sorted by the lexicographic comparator.  ECMAScript's `Array.sort` is
required to be stable, and for a consistent comparator every stable sort
computes the same list; insertion sort realises that list structurally. -/
def sortedIndices (t : DataTable) (cols : List String) : List Nat :=
  ((List.finRange t.rowCount).insertionSort
      (fun a b => rowLe t cols a.val b.val)).map Fin.val

/-- Source `setorder(columns)` (DT_col3.ts lines 25-40): compute the stable
sort permutation of the row positions and rewrite every column of `_data`
through it (the loop runs over `_columns`, which names exactly the entries of
`_data` for well-formed tables). -/
def setorderFn (t : DataTable) (cols : List String) : DataTable :=
  let σ := sortedIndices t cols
  { t with data := t.data.map (fun p => (p.1, σ.map (fun i => p.2.getD i .undefV))) }

/-- Source `addRow(row)` (DT_col3.ts lines 42-47): push `row[column]` onto
every column (the loop runs over `_columns`, which names exactly the entries
of `_data` for well-formed tables) and increment the row count. -/
def addRowFn (t : DataTable) (row : RowObj) : DataTable :=
  { t with
    data := t.data.map (fun p => (p.1, p.2 ++ [(alookup p.1 row).getD .undefV])),
    rowCount := t.rowCount + 1 }

/-- Source `addRows(rows)`: `addRow` in sequence. -/
def addRowsFn (t : DataTable) (rows : List RowObj) : DataTable :=
  rows.foldl addRowFn t

/-! ## JS object key enumeration

The `groupBy` helpers accumulate groups in a plain JS object keyed by the
joined key string and finally call `Object.values`.  ECMAScript enumerates own
string keys with array-index keys first (canonical numeric strings below
2^32 - 1, in ascending numeric order) and all other keys in insertion order. -/

/-- Parse a nonempty all-decimal-digit string as a natural number. -/
def decDigits? (s : String) : Option Nat :=
  match s.data with
  | [] => none
  | cs =>
    if cs.all (fun c => decide ('0' ≤ c) && decide (c ≤ '9')) then
      some (cs.foldl (fun n c => n * 10 + (c.toNat - 48)) 0)
    else none

/-- Recognise a canonical array-index property key: the decimal rendering of
some `n < 2^32 - 1`. -/
def isArrayIndexStr (s : String) : Option Nat :=
  match decDigits? s with
  | some n => if toString n = s ∧ n < 4294967295 then some n else none
  | none => none

/-- ECMAScript own-property enumeration order of an insertion-ordered
association list: array-index keys in ascending numeric order first, then the
remaining keys in insertion order. -/
def objectEntriesOrder {α : Type} (gs : List (String × α)) :
    List (String × α) :=
  (gs.filter (fun g => (isArrayIndexStr g.1).isSome)).insertionSort
      (fun a b => (isArrayIndexStr a.1).getD 0 ≤ (isArrayIndexStr b.1).getD 0)
  ++ gs.filter (fun g => (isArrayIndexStr g.1).isNone)

/-- JavaScript `Object.values` of an insertion-ordered association list. -/
def objectValuesOf {α : Type} (gs : List (String × α)) : List α :=
  (objectEntriesOrder gs).map Prod.snd

/-- One step of the `groupBy` loop: append position `p` to the group keyed
`k`, creating the group if the key is new. -/
def insertGroup (gs : List (String × List Nat)) (k : String) (p : Nat) :
    List (String × List Nat) :=
  if gs.any (fun g => decide (g.1 = k)) then
    gs.map (fun g => if g.1 = k then (g.1, g.2 ++ [p]) else g)
  else
    gs ++ [(k, [p])]

/-- The `groups` object of `groupBy` after processing the positions `ps` in
order, keyed by `jkey`. -/
def buildGroups (jkey : Nat → String) (ps : List Nat) :
    List (String × List Nat) :=
  ps.foldl (fun gs p => insertGroup gs (jkey p) p) []

/-- The joined key string `keys.map((k) => columns[k][i]).join('|')` computed
from an association of columns at position `p`; per `Array.prototype.join`,
`null` and `undefined` cells render as the empty string. -/
def jkeyOf (cols : List (String × List Value)) (bys : List String) (p : Nat) :
    String :=
  String.intercalate "|" (bys.map (fun k =>
    joinElemStr (((alookup k cols).getD []).getD p .undefV)))

/-- Source `groupBy(columns, keys, indices)` of the first class of DT_col3.ts
(lines 147-161): the loop reads `columns[k][i]` at loop position `i` and
pushes `i`, so only the length of `indices` matters; the final
`Object.values(groups)` enumerates in ECMAScript property order.  (The query
wrapper checks separately for the `TypeError` thrown when a grouping column is
absent from `columns` and the loop body runs.) -/
def groupByCol3 (cols : List (String × List Value)) (bys : List String)
    (len : Nat) : List (List Nat) :=
  objectValuesOf (buildGroups (jkeyOf cols bys) (List.range len))

/-! ## The `query` of the first class of DT_col3.ts (pure variant) -/

/-- Project one column at the filtered indices, as the source expression
`indices.map((i) => this._data[key][i])`: when the column is absent from
`_data` and at least one index is mapped, reading `undefined[i]` throws a
`TypeError`; with no indices the arrow function never runs. -/
def colProject (data : List (String × List Value)) (k : String)
    (indices : List Nat) : Except JsError (List Value) :=
  match alookup k data with
  | some vs => .ok (indices.map (fun i => vs.getD i .undefV))
  | none => if indices.isEmpty then .ok [] else .error .typeError

/-- Source `columnsToRows(columns)` (DT_col3.ts lines 163-173): read the row
count off the first column (`columns[keys[0]].length` throws a `TypeError`
when there are no columns) and rebuild the row objects. -/
def columnsToRows (cols : List (String × List Value)) :
    Except JsError (List RowObj) :=
  match cols with
  | [] => .error .typeError
  | (_, v0) :: _ =>
    .ok ((List.range v0.length).map
      (fun i => cols.map (fun p => (p.1, p.2.getD i .undefV))))

/-- Source constructor of the first class of DT_col3.ts (lines 7-13) from
row-major input: `Object.keys(data[0])` throws a `TypeError` on an empty
array, otherwise the columns are the first row's keys and each column is
collected across the rows. -/
def mkDataTable (rows : List RowObj) : Except JsError DataTable :=
  match rows with
  | [] => .error .typeError
  | r0 :: _ =>
    let cs := r0.map Prod.fst
    .ok { data := cs.map (fun c => (c, rows.map (fun r => (alookup c r).getD .undefV))),
          columns := cs,
          rowCount := rows.length,
          keys := [] }

/-- An assign entry: output column name paired with the per-row function
`(row, index) => value` (`Object.entries(operations.assign)` order). An empty
list models an absent or empty `assign` object. -/
abbrev AssignList := List (String × (RowObj → Nat → Value))

/-- The filter step of `query` (DT_col3.ts lines 89-96): the kept row
positions, in order. -/
def queryIndices (t : DataTable) (filterFn : Option (RowObj → Bool)) :
    List Nat :=
  match filterFn with
  | none => List.range t.rowCount
  | some f => (List.range t.rowCount).filter (fun i => f (getRow t i))

/-- The column names from which `resultColumns` is built (DT_col3.ts lines
100-113): the `select` list when given, otherwise all columns. -/
def querySelCols (t : DataTable) (sel : Option (List String)) : List String :=
  match sel with
  | some ks => ks
  | none => t.columns

/-- The `resultColumns` object after the select step: each chosen column
projected onto the filtered indices (a missing column throws, see
`colProject`). -/
def queryBase (t : DataTable) (sel : Option (List String))
    (indices : List Nat) : Except JsError (List (String × List Value)) :=
  (querySelCols t sel).mapM
    (fun k => (colProject t.data k indices).map (fun vs => (k, vs)))

/-- The assign step (DT_col3.ts lines 115-123): each assign entry writes the
column of values computed from the original rows at the filtered indices into
`resultColumns`, in `Object.entries` order. -/
def queryAssign (t : DataTable) (asn : AssignList) (indices : List Nat)
    (base : List (String × List Value)) : List (String × List Value) :=
  asn.foldl
    (fun cols p => setAssoc cols p.1 (indices.map (fun i => p.2 (getRow t i) i)))
    base

/-- The grouping step (DT_col3.ts lines 125-140): regroup `resultColumns` to
the first row of each group; a grouping column absent from `resultColumns`
throws a `TypeError` as soon as the `groupBy` loop body runs. -/
def queryGroup (bys : Option (List String)) (indices : List Nat)
    (assigned : List (String × List Value)) :
    Except JsError (List (String × List Value)) :=
  match bys with
  | none => pure assigned
  | some bks =>
    if indices.length ≠ 0 ∧ bks.any (fun k => (alookup k assigned).isNone) then
      .error .typeError
    else
      let gs := groupByCol3 assigned bks indices.length
      pure (assigned.map
        (fun p => (p.1, gs.map (fun g => p.2.getD (g.headD 0) .undefV))))

/-- The body of the pure `query` of the first class of DT_col3.ts
(lines 78-145), returning the receiver (which it never writes) paired with the
call's outcome.  Steps, in source order: filter the row positions; build
`resultColumns` from the `select` list or from all columns; overlay the
`assign` columns; when `by` is given regroup `resultColumns` to the first row
of each group; finally rebuild rows and construct the result table. -/
def queryCol3 (t : DataTable) (filterFn : Option (RowObj → Bool))
    (sel : Option (List String)) (asn : AssignList)
    (bys : Option (List String)) : DataTable × Except JsError DataTable :=
  (t, do
    let indices := queryIndices t filterFn
    let base ← queryBase t sel indices
    let assigned := queryAssign t asn indices base
    let grouped ← queryGroup bys indices assigned
    let rows ← columnsToRows grouped
    mkDataTable rows)

/-! ## The `query` of DT_col4.ts (mutating variant) -/

/-- Source constructor of DT_col4.ts from column-major input
(`initialiseFromColumns`, lines 29-33): adopt the associations as `_data`,
the keys as `_columns`, and read the row count off the first column
(`data[this._columns[0]].length` throws a `TypeError` when there are no
columns).  Lengths are not validated. -/
def fromColumns (cols : List (String × List Value)) : Except JsError DataTable :=
  match cols with
  | [] => .error .typeError
  | (_, v0) :: _ =>
    .ok { data := cols, columns := cols.map Prod.fst,
          rowCount := v0.length, keys := [] }

/-- Source `groupBy` of DT_col4.ts (lines 162-177): unlike the first class of
DT_col3.ts, the loop reads `columns[k][indices[i]]` and pushes `indices[i]`,
so the groups hold original row positions. -/
def groupByCol4 (cols : List (String × List Value)) (bys : List String)
    (indices : List Nat) : List (List Nat) :=
  objectValuesOf (buildGroups (jkeyOf cols bys) indices)

/-- One `assign` entry applied in place by the mutating query: write the
column of values computed over the filtered indices into `_data` and register
the column name if it is new (DT_col4.ts lines 114-124).  Later entries see
the writes of earlier ones through `getRow`. -/
def assignInPlace (t : DataTable) (indices : List Nat)
    (p : String × (RowObj → Nat → Value)) : DataTable :=
  { t with
    data := setAssoc t.data p.1 (indices.map (fun i => p.2 (getRow t i) i)),
    columns := if t.columns.contains p.1 then t.columns else t.columns ++ [p.1] }

/-- The body of the mutating `query` of DT_col4.ts (lines 93-160), returning
the receiver as left by the call paired with the call's outcome.  Steps, in
source order: filter the row positions; apply `assign` entries in place on
the receiver; with `select`, project the (possibly mutated) receiver into a
new column-major table; otherwise with `by`, group the original row positions
and build a one-row-per-group table; otherwise return the receiver itself. -/
def queryCol4 (t : DataTable) (filterFn : Option (RowObj → Bool))
    (sel : Option (List String)) (asn : AssignList)
    (bys : Option (List String)) : DataTable × Except JsError DataTable :=
  let indices : List Nat :=
    match filterFn with
    | none => List.range t.rowCount
    | some f => (List.range t.rowCount).filter (fun i => f (getRow t i))
  let t2 := asn.foldl (fun acc p => assignInPlace acc indices p) t
  match sel with
  | some ks =>
    (t2, do
      let cols ← ks.mapM
        (fun k => (colProject t2.data k indices).map (fun vs => (k, vs)))
      fromColumns cols)
  | none =>
    match bys with
    | some bks =>
      (t2,
        if indices.length ≠ 0 ∧ bks.any (fun k => (alookup k t2.data).isNone) then
          .error .typeError
        else
          let gs := groupByCol4 t2.data bks indices
          fromColumns (t2.columns.map
            (fun c => (c, gs.map (fun g => valueAt t2 c (g.headD 0))))))
    | none => (t2, .ok t2)

/-! ## The first class of DT_col5.ts -/

/-- The row-major table of the first class of DT_col5.ts: `_data` is the list
of row maps, `_columns` the keys of the first row, `_rowCount` the number of
rows. -/
structure DataTable5 where
  data : List RowObj
  columns : List String
  rowCount : Nat
deriving DecidableEq, Repr

/-- Source constructor (DT_col5.ts lines 9-17): empty input throws, otherwise
record the rows, the first row's keys, and the row count. -/
def mkDataTable5 (input : List RowObj) : Except JsError DataTable5 :=
  match input with
  | [] => .error (.thrown "Input data must not be empty")
  | r0 :: _ =>
    .ok { data := input, columns := r0.map Prod.fst, rowCount := input.length }

/-- Source `checkColumnsExist(cols)` (DT_col5.ts lines 19-24): throw an
unknown-column error naming the missing columns, if any. -/
def checkColumnsExist5 (t : DataTable5) (cs : List String) :
    Except JsError Unit :=
  let missing := cs.filter (fun c => decide (c ∉ t.columns))
  if missing.isEmpty then .ok ()
  else .error (.thrown ("Columns do not exist: " ++ String.intercalate ", " missing))

/-- Source `toRows()` (DT_col5.ts lines 66-68).  The body calls
`this.getRows(0, this.rowCount)`, but the class declares only `_rowCount`, so
`this.rowCount` is `undefined`: the range guard compares against `undefined`
(every comparison false, no throw) and `Array.from({ length: undefined - 0 })`
has length `ToLength(NaN) = 0`.  The call therefore always returns `[]`. -/
def toRows5 (_t : DataTable5) : List RowObj :=
  []

/-- Grouping step of `query` (DT_col5.ts lines 86-96): a JS `Map` keyed by the
joined key string, which always preserves insertion order. -/
def groupRows5 (bys : List String) (rows : List RowObj) :
    List (String × List RowObj) :=
  rows.foldl
    (fun gs row =>
      let k := String.intercalate "|"
        (bys.map (fun c => joinElemStr ((alookup c row).getD .undefV)))
      if gs.any (fun g => decide (g.1 = k)) then
        gs.map (fun g => if g.1 = k then (g.1, g.2 ++ [row]) else g)
      else gs ++ [(k, [row])])
    []

/-- The `query` of the first class of DT_col5.ts (lines 70-142): materialise
the rows (always `[]`, see `toRows5`), filter them, then either group (with a
`checkColumnsExist` guard on the grouping columns) or apply `select` (with a
`checkColumnsExist` guard on the selected columns) and `assign`, and construct
the result table. In the grouped-assign branch the source passes the whole
group array where a row is expected; as no row ever exists, that branch only
ever constructs from an empty list. -/
def query5 (t : DataTable5) (i : Option (RowObj → Nat → Bool))
    (sel : Option (List String)) (asn : AssignList)
    (bys : Option (List String)) : Except JsError DataTable5 := do
  let rows0 := toRows5 t
  let result :=
    match i with
    | none => rows0
    | some f => rows0.enum.filterMap
        (fun p => if f p.2 p.1 then some p.2 else none)
  match bys with
  | some bks => do
    checkColumnsExist5 t bks
    let groups := groupRows5 bks result
    if asn.isEmpty then
      mkDataTable5 ((groups.map Prod.snd).flatten)
    else
      mkDataTable5 (groups.map (fun g =>
        bks.map (fun c => (c, (alookup c (g.2.headD [])).getD .undefV))
          ++ asn.map (fun p => (p.1, p.2 (g.2.headD []) 0))))
  | none => do
    let result2 ←
      match sel with
      | none => pure result
      | some ks => do
        checkColumnsExist5 t ks
        pure (result.map (fun row => ks.map (fun c => (c, (alookup c row).getD .undefV))))
    let result3 := asn.foldl
      (fun rows p => rows.enum.map (fun q => setAssoc q.2 p.1 (p.2 q.2 q.1)))
      result2
    mkDataTable5 result3

/-! ## Reshape engine (spec section 4.5)

The repository's source tree contains no implementation of `melt`/`dcast`
(the demo scripts only import them), so the two operations are modelled from
the specification's words over row-major tables. -/

/-- Field access on a spec-model row: a missing column reads as `null` (the
spec's null cell). -/
def rowGetS (row : RowObj) (c : String) : Value :=
  (alookup c row).getD .nullV

/-- One output row of `melt`: the identifier columns of the source row,
followed by the `variable` column holding the measure's name and the `value`
column holding the measure's value. -/
def mkLong (ids : List String) (row : RowObj) (m : String) : RowObj :=
  ids.map (fun c => (c, rowGetS row c))
    ++ [("variable", Value.str m), ("value", rowGetS row m)]

/-- Modelled from the spec: `melt` is absent from src/ (the demo scripts
merely name it).  Spec 4.5: given identifier columns (kept as-is, duplicated per
output row) and measure columns, produce a long table with one row per
(original row x measure column): identifier columns repeated, a `variable`
column holding the measure's original column name, a `value` column holding
that measure's value. -/
def meltS (T : List RowObj) (ids measures : List String) : List RowObj :=
  T.flatMap (fun row => measures.map (fun m => mkLong ids row m))

/-- The identifier tuple of a row. -/
def idTupleS (ids : List String) (row : RowObj) : List Value :=
  ids.map (rowGetS row)

/-- The source rows matching one (identifier-combination, variable-value)
cell. -/
def dcastCell (L : List RowObj) (ids : List String) (varC : String)
    (combo : List Value) (v : Value) : List RowObj :=
  L.filter (fun row => decide (idTupleS ids row = combo ∧ rowGetS row varC = v))

/-- Modelled from the spec: `dcast` is absent from src/ (the demo scripts
merely name it).  Spec 4.5: given identifier columns, a variable column and a value
column, produce one row per distinct identifier-combination and one output
column per distinct variable value, populated from the corresponding value; an
identifier/variable combination with no matching source row yields a null
cell; a combination with more than one matching source row raises
`AmbiguityError` (no aggregation function is modelled).  Distinct
combinations and distinct variable values are taken in first-occurrence
order. -/
def dcastS (L : List RowObj) (ids : List String) (varC valC : String) :
    Except String (List RowObj) :=
  let combos := dedupF (L.map (idTupleS ids))
  let vars := dedupF (L.map (fun row => rowGetS row varC))
  if combos.any (fun combo => vars.any
      (fun v => 2 ≤ (dcastCell L ids varC combo v).length)) then
    .error "AmbiguityError"
  else
    .ok (combos.map (fun combo =>
      ids.zip combo ++ vars.map (fun v =>
        (toStringJS v,
          match dcastCell L ids varC combo v with
          | [row] => rowGetS row valC
          | _ => Value.nullV))))

/-- Restriction of a row-major table to the named columns, in that order. -/
def restrictRows (T : List RowObj) (cs : List String) : List RowObj :=
  T.map (fun row => cs.map (fun c => (c, rowGetS row c)))

/-! ## Concrete tables used by the counterexamples and witnesses -/

instance {ε α : Type} [DecidableEq ε] [DecidableEq α] :
    DecidableEq (Except ε α) := fun x y =>
  match x, y with
  | .ok a, .ok b =>
    if h : a = b then isTrue (by rw [h]) else isFalse (by simp [h])
  | .error e, .error e2 =>
    if h : e = e2 then isTrue (by rw [h]) else isFalse (by simp [h])
  | .ok _, .error _ => isFalse (by simp)
  | .error _, .ok _ => isFalse (by simp)

/-- A well-formed two-row table with the single column `a = [1, 2]`. -/
def exT2 : DataTable :=
  { data := [("a", [.num 1, .num 2])], columns := ["a"], rowCount := 2,
    keys := [] }

/-- The row filter `row.a === 1`, keeping only the first row of `exT2`. -/
def filtA1 : RowObj → Bool := fun row => decide (alookup "a" row = some (.num 1))

/-- A well-formed two-row table whose two rows have componentwise distinct
`(a, b)` key tuples whose joined key strings nevertheless coincide:
`"x|y" + "|" + "z"` and `"x" + "|" + "y|z"` are both `"x|y|z"`. -/
def exPipe : DataTable :=
  { data := [("a", [.str "x|y", .str "x"]), ("b", [.str "z", .str "y|z"])],
    columns := ["a", "b"], rowCount := 2, keys := [] }

/-- A well-formed two-row table with the numeric column `a = [2, 1]`, not in
ascending order. -/
def exT21 : DataTable :=
  { data := [("a", [.num 2, .num 1])], columns := ["a"], rowCount := 2,
    keys := [] }

/-! ## C1, C2, C3, C7: concrete refutations and frame facts -/

/-- C1.  The shape invariant is not preserved by every public operation: on
the two-row well-formed table `exT2`, the mutating query of DT_col4.ts
(lines 113-124) with the filter `a === 1` and the assign `b := 9` writes the
filtered-length column `[9]` into the receiver while `_rowCount` stays `2`,
so afterwards column `b` has length 1 ≠ 2 and the invariant is broken (the
claim requires it to hold for the receiver after an assign with a row
filter). -/
theorem C1_code_bug_demo :
    ShapeInv exT2 ∧
    ¬ ShapeInv (queryCol4 exT2 (some filtA1) none
        [("b", fun _ _ => .num 9)] none).1 := by
  decide

/-- C2.  Refutation of "query never mutates the receiver" at a concrete
input: the DT_col4.ts query (the mutating variant cited by the claim), given
an assign argument, leaves the receiver different from its prior state. -/
theorem C2_counterexample :
    (queryCol4 exT2 (some filtA1) none [("b", fun _ _ => .num 9)] none).1
      ≠ exT2 := by
  decide

/-- C2 (amended).  The pure query variant (DT_col3.ts first class, lines
78-145) never mutates the receiver: for every table and every combination of
filter, select, assign and by arguments, the receiver after the call is
exactly the table before the call.  (The mutating DT_col4.ts variant does
rewrite the receiver's columns when given an assign argument, as the
counterexample shows.) -/
theorem C2_amended (t : DataTable) (filterFn : Option (RowObj → Bool))
    (sel : Option (List String)) (asn : AssignList)
    (bys : Option (List String)) :
    (queryCol3 t filterFn sel asn bys).1 = t :=
  rfl

/-- C3.  Refutation of the zero-match case: on the one-column table `exT2`
and a filter satisfied by no row, the filter-count of matching rows is `0`,
but `query` does not return a zero-row table: the result constructor
(DT_col3.ts lines 7-13) evaluates `Object.keys(data[0])` on the empty row
array and the call fails with a `TypeError`. -/
theorem C3_counterexample :
    ((getRowsOf exT2).filter (fun _ => false)).length = 0 ∧
    (queryCol3 exT2 (some (fun _ => false)) none [] none).2
      = .error .typeError := by
  constructor
  · rfl
  · rfl

/-- C7.  Refutation of "setkey physically re-sorts the rows": on the table
`exT21` with column `a = [2, 1]`, `setkey` (DT_col3.ts lines 21-23) records
the key but leaves `_data` untouched, and the rows are not in ascending key
order afterwards (the comparator orders row 0 strictly after row 1). -/
theorem C7_counterexample :
    (setkeyFn exT21 ["a"]).data = exT21.data ∧
    (setkeyFn exT21 ["a"]).keys = ["a"] ∧
    cmpVals (keyTuple (setkeyFn exT21 ["a"]) ["a"] 0)
        (keyTuple (setkeyFn exT21 ["a"]) ["a"] 1) = 1 := by
  refine ⟨rfl, rfl, ?_⟩
  decide

/-- C7 (amended).  `setkey` records the (deduplicated, insertion-ordered) key
columns and performs no physical reordering: the columns, the data and the
row count of the receiver are untouched. -/
theorem C7_amended (t : DataTable) (ks : List String) :
    (setkeyFn t ks).data = t.data ∧
    (setkeyFn t ks).columns = t.columns ∧
    (setkeyFn t ks).rowCount = t.rowCount ∧
    (setkeyFn t ks).keys = dedupF ks :=
  ⟨rfl, rfl, rfl, rfl⟩

/-! ## C4, C5, C6, C8: concrete refutations -/

/-- C4.  Refutation of "same group iff componentwise-equal key tuples": in
`exPipe` the two rows have distinct `(a, b)` tuples, yet `groupBy`
(DT_col3.ts lines 147-161) keys groups by `values.join('|')` and both rows
join to the string `"x|y|z"`, so they land in one and the same group. -/
theorem C4_counterexample :
    groupByCol3 exPipe.data ["a", "b"] 2 = [[0, 1]] ∧
    keyTuple exPipe ["a", "b"] 0 ≠ keyTuple exPipe ["a", "b"] 1 := by
  decide

/-- C5.  Refutation of first-occurrence group order: grouping the column
`a = [2, 1]` inserts the joined keys `"2"` then `"1"` into a plain JS object,
and `Object.values` enumerates array-index keys in ascending numeric order,
so the code yields the `1`-group before the `2`-group, while first-occurrence
order (the insertion order of the groups object) is the `2`-group first. -/
theorem C5_counterexample :
    groupByCol3 [("a", [.num 2, .num 1])] ["a"] 2 = [[1], [0]] ∧
    (buildGroups (jkeyOf [("a", [.num 2, .num 1])] ["a"])
        (List.range 2)).map Prod.snd = [[0], [1]] := by
  decide

/-- C6.  Refutation of "one row per distinct grouping-key combination": a
grouped query on `exPipe` (two rows, two componentwise distinct key tuples,
whose joined key strings collide) returns a one-row table although the
filtered rows carry two distinct grouping-key combinations. -/
theorem C6_counterexample :
    (queryCol3 exPipe none none [] (some ["a", "b"])).2
      = .ok { data := [("a", [.str "x|y"]), ("b", [.str "z"])],
              columns := ["a", "b"], rowCount := 1, keys := [] } ∧
    (dedupF ((List.range 2).map (keyTuple exPipe ["a", "b"]))).length = 2 := by
  constructor
  · rfl
  · rfl

/-- C8.  Refutation of "an unknown select column always fails with an
unknown-column SchemaError": the select branch of the first class of
DT_col3.ts (lines 100-106) performs no existence check and evaluates
`this._data[key][i]` with `this._data[key]` undefined, so the call fails with
an unrelated `TypeError` instead of an unknown-column error. -/
theorem C8_counterexample :
    (queryCol3 exT2 none (some ["zzz"]) [] none).2 = .error .typeError := by
  rfl

/-! ## C10: correctness of `setorder` -/

theorem numLtB_asymm (oa ob : Option Int) (h : numLtB oa ob = true) :
    numLtB ob oa = false := by
  cases oa <;> cases ob <;> simp_all [numLtB]
  omega

theorem jsLtV_asymm : ∀ (a b : Value), jsLtV a b = true → jsLtV b a = false := by
  intro a b h
  cases a <;> cases b <;>
    simp only [jsLtV] at h ⊢ <;>
    first
    | exact numLtB_asymm _ _ h
    | · rw [decide_eq_true_eq] at h
        exact decide_eq_false (lt_asymm h)

theorem cmpVals_anti : ∀ (u v : List Value), cmpVals v u = - cmpVals u v := by
  intro u
  induction u with
  | nil => intro v; cases v <;> rfl
  | cons a as ih =>
    intro v
    cases v with
    | nil => rfl
    | cons b bs =>
      by_cases h1 : jsLtV a b = true
      · have h2 := jsLtV_asymm a b h1
        simp [cmpVals, h1, h2]
      · by_cases h2 : jsLtV b a = true
        · simp [cmpVals, h1, h2]
        · simp only [cmpVals, h1, h2, if_false, Bool.not_eq_true] at *
          simp [h1, h2, ih bs]

theorem rowLe_total (t : DataTable) (cols : List String) (a b : Nat) :
    rowLe t cols a b ∨ rowLe t cols b a := by
  unfold rowLe
  rcases le_or_lt (cmpVals (keyTuple t cols a) (keyTuple t cols b)) 0 with h | h
  · exact Or.inl h
  · right
    rw [cmpVals_anti]
    omega

theorem pair_sublist_of_lt {α : Type} (l : List α) (i j : Nat)
    (hi : i < l.length) (hj : j < l.length) (hij : i < j) :
    [l.get ⟨i, hi⟩, l.get ⟨j, hj⟩].Sublist l := by
  have hj2 : j - (i + 1) < (l.drop (i + 1)).length := by
    simp [List.length_drop]
    omega
  have hmem : l.get ⟨j, hj⟩ ∈ l.drop (i + 1) := by
    refine List.mem_iff_getElem.mpr ⟨j - (i + 1), hj2, ?_⟩
    rw [List.getElem_drop, List.get_eq_getElem]
    simp only [show i + 1 + (j - (i + 1)) = j from by omega]
  have h1 : [l.get ⟨j, hj⟩].Sublist (l.drop (i + 1)) :=
    List.singleton_sublist.mpr hmem
  have h2 : (l.get ⟨i, hi⟩ :: [l.get ⟨j, hj⟩]).Sublist
      (l.get ⟨i, hi⟩ :: l.drop (i + 1)) := List.Sublist.cons₂ _ h1
  have h3 : l.get ⟨i, hi⟩ :: l.drop (i + 1) = l.drop i := by
    rw [List.get_eq_getElem]
    exact List.getElem_cons_drop l i hi
  rw [h3] at h2
  exact h2.trans (List.drop_sublist i l)

theorem pair_sublist_finRange {n : Nat} (a b : Fin n) (hab : a.val < b.val) :
    [a, b].Sublist (List.finRange n) := by
  have hla : a.val < (List.finRange n).length := by
    simp [List.length_finRange, a.isLt]
  have hlb : b.val < (List.finRange n).length := by
    simp [List.length_finRange, b.isLt]
  have ha : (List.finRange n).get ⟨a.val, hla⟩ = a := by
    rw [List.get_eq_getElem, List.getElem_finRange]
    exact Fin.ext rfl
  have hb : (List.finRange n).get ⟨b.val, hlb⟩ = b := by
    rw [List.get_eq_getElem, List.getElem_finRange]
    exact Fin.ext rfl
  have := pair_sublist_of_lt (List.finRange n) a.val b.val hla hlb hab
  rwa [ha, hb] at this

theorem alookup_map_value {α β : Type} (k : String) (f : α → β) :
    ∀ (l : List (String × α)),
      alookup k (l.map (fun p => (p.1, f p.2))) = (alookup k l).map f
  | [] => rfl
  | (c, v) :: rest => by
    by_cases h : c = k
    · simp [alookup, h]
    · simp [alookup, h, alookup_map_value k f rest]

theorem length_sortedIndices (t : DataTable) (cols : List String) :
    (sortedIndices t cols).length = t.rowCount := by
  simp [sortedIndices]

theorem valueAt_setorder (t : DataTable) (cols : List String) (c : String)
    (i : Nat) (hi : i < t.rowCount) :
    valueAt (setorderFn t cols) c i
      = valueAt t c ((sortedIndices t cols).getD i 0) := by
  have hlen : i < (sortedIndices t cols).length := by
    rw [length_sortedIndices]; exact hi
  have hdata : (setorderFn t cols).data
      = t.data.map (fun p =>
          (p.1, (sortedIndices t cols).map (fun j => p.2.getD j .undefV))) := rfl
  unfold valueAt
  rw [hdata,
    alookup_map_value c (fun vs => (sortedIndices t cols).map (fun j => vs.getD j .undefV)) t.data]
  cases halo : alookup c t.data with
  | none => rfl
  | some vs =>
    show (List.map (fun j => vs.getD j Value.undefV) (sortedIndices t cols)).getD i Value.undefV
        = vs.getD ((sortedIndices t cols).getD i 0) Value.undefV
    have hmaplen :
        i < ((sortedIndices t cols).map (fun j => vs.getD j Value.undefV)).length := by
      rw [List.length_map]; exact hlen
    rw [List.getD_eq_getElem _ _ hmaplen, List.getElem_map,
      List.getD_eq_getElem _ _ hlen]

theorem getRow_setorder (t : DataTable) (cols : List String) (i : Nat)
    (hi : i < t.rowCount) :
    getRow (setorderFn t cols) i
      = getRow t ((sortedIndices t cols).getD i 0) := by
  unfold getRow
  show (setorderFn t cols).columns.map _ = _
  have hcols : (setorderFn t cols).columns = t.columns := rfl
  rw [hcols]
  exact List.map_congr_left (fun c _ => by rw [valueAt_setorder t cols c i hi])

theorem keyTuple_setorder (t : DataTable) (cols cols2 : List String) (i : Nat)
    (hi : i < t.rowCount) :
    keyTuple (setorderFn t cols) cols2 i
      = keyTuple t cols2 ((sortedIndices t cols).getD i 0) := by
  unfold keyTuple
  exact List.map_congr_left (fun c _ => by rw [valueAt_setorder t cols c i hi])

theorem getRowsOf_setorder (t : DataTable) (cols : List String) :
    getRowsOf (setorderFn t cols) = (sortedIndices t cols).map (getRow t) := by
  apply List.ext_getElem
  · simp [getRowsOf, length_sortedIndices]
    rfl
  · intro i h1 h2
    have hi : i < t.rowCount := by
      simpa [length_sortedIndices] using h2
    have hr : (setorderFn t cols).rowCount = t.rowCount := rfl
    simp only [getRowsOf, List.getElem_map, List.getElem_range]
    rw [getRow_setorder t cols i hi,
      List.getD_eq_getElem _ _ (by rw [length_sortedIndices]; exact hi)]

/-- C10.  Correctness of `setorder` (DT_col3.ts lines 25-40), assuming the
comparator-induced precedence on the row positions is transitive (which holds
whenever the named columns hold mutually comparable values; with incomparable
mixed-type values ECMAScript leaves the sort order implementation-defined).
The permutation `sortedIndices` is one permutation of all row positions and
every column of the result is that same permutation of the original column,
so the rows of the result are a permutation of the rows of the receiver; the
column list and row count are unchanged; the result's rows are in ascending
lexicographic comparator order; and the sort is stable: positions with equal
key tuples keep their relative order. -/
theorem C10_setorder (t : DataTable) (cols : List String)
    (htrans : ∀ a b c : Fin t.rowCount,
      rowLe t cols a.val b.val → rowLe t cols b.val c.val →
      rowLe t cols a.val c.val) :
    (sortedIndices t cols).Perm (List.range t.rowCount) ∧
    (setorderFn t cols).columns = t.columns ∧
    (setorderFn t cols).rowCount = t.rowCount ∧
    (setorderFn t cols).data
      = t.data.map (fun p =>
          (p.1, (sortedIndices t cols).map (fun i => p.2.getD i .undefV))) ∧
    (getRowsOf (setorderFn t cols)).Perm (getRowsOf t) ∧
    List.Pairwise (rowLe (setorderFn t cols) cols)
      (List.range t.rowCount) ∧
    (∀ a b : Fin t.rowCount, a.val < b.val →
      cmpVals (keyTuple t cols a.val) (keyTuple t cols b.val) = 0 →
      [a.val, b.val].Sublist (sortedIndices t cols)) := by
  set n := t.rowCount with hn
  let r : Fin n → Fin n → Prop := fun a b => rowLe t cols a.val b.val
  letI : DecidableRel r := fun a b =>
    inferInstanceAs (Decidable (rowLe t cols a.val b.val))
  letI : IsTotal (Fin n) r := ⟨fun a b => rowLe_total t cols a.val b.val⟩
  letI : IsTrans (Fin n) r := ⟨htrans⟩
  have hperm : (sortedIndices t cols).Perm (List.range n) := by
    have h2 := (List.perm_insertionSort r (List.finRange n)).map Fin.val
    have h3 : (List.finRange n).map Fin.val = List.range n := by
      simp
    exact h3 ▸ h2
  have hpairσ : List.Pairwise (rowLe t cols) (sortedIndices t cols) := by
    have hs := List.sorted_insertionSort r (List.finRange n)
    exact List.pairwise_map.mpr hs
  refine ⟨hperm, rfl, rfl, rfl, ?_, ?_, ?_⟩
  · rw [getRowsOf_setorder]
    have h4 : ((List.range n).map (getRow t)) = getRowsOf t := rfl
    exact h4 ▸ hperm.map (getRow t)
  · rw [List.pairwise_iff_getElem]
    intro i j hi hj hij
    simp only [List.getElem_range] at *
    have hi2 : i < n := by simpa using hi
    have hj2 : j < n := by simpa using hj
    have hgi : i < (sortedIndices t cols).length := by
      rw [length_sortedIndices]; exact hi2
    have hgj : j < (sortedIndices t cols).length := by
      rw [length_sortedIndices]; exact hj2
    have hkey :
        rowLe (setorderFn t cols) cols i j
          ↔ rowLe t cols ((sortedIndices t cols).getD i 0)
              ((sortedIndices t cols).getD j 0) := by
      unfold rowLe
      rw [keyTuple_setorder t cols cols i hi2, keyTuple_setorder t cols cols j hj2]
    rw [hkey]
    have hp := List.pairwise_iff_getElem.mp hpairσ i j hgi hgj hij
    rwa [List.getD_eq_getElem _ _ hgi, List.getD_eq_getElem _ _ hgj]
  · intro a b hab hcmp
    have hr : r a b := by
      show rowLe t cols a.val b.val
      unfold rowLe
      rw [hcmp]
    have hsub : [a, b].Sublist ((List.finRange n).insertionSort r) :=
      List.pair_sublist_insertionSort hr (pair_sublist_finRange a b hab)
    have := hsub.map Fin.val
    simpa [sortedIndices] using this

/-- A three-row table with a tie on the sort column `a`, used to witness
`C10_setorder` at a concrete input. -/
def exT3 : DataTable :=
  { data := [("a", [.num 2, .num 1, .num 2]),
             ("b", [.num 10, .num 20, .num 30])],
    columns := ["a", "b"], rowCount := 3, keys := [] }

/-- Witness for C10 at the concrete table `exT3` (tie between rows 0 and 2 on
column `a`), discharging the transitivity hypothesis by evaluation. -/
theorem C10_witness :
    (sortedIndices exT3 ["a"]).Perm (List.range exT3.rowCount) ∧
    (setorderFn exT3 ["a"]).columns = exT3.columns ∧
    (setorderFn exT3 ["a"]).rowCount = exT3.rowCount ∧
    (setorderFn exT3 ["a"]).data
      = exT3.data.map (fun p =>
          (p.1, (sortedIndices exT3 ["a"]).map (fun i => p.2.getD i .undefV))) ∧
    (getRowsOf (setorderFn exT3 ["a"])).Perm (getRowsOf exT3) ∧
    List.Pairwise (rowLe (setorderFn exT3 ["a"]) ["a"])
      (List.range exT3.rowCount) ∧
    (∀ a b : Fin exT3.rowCount, a.val < b.val →
      cmpVals (keyTuple exT3 ["a"] a.val) (keyTuple exT3 ["a"] b.val) = 0 →
      [a.val, b.val].Sublist (sortedIndices exT3 ["a"])) :=
  C10_setorder exT3 ["a"] (by decide)

/-! ## Characterisation of the object-based `groupBy` -/

theorem buildGroups_eq (jkey : Nat → String) (ps : List Nat) :
    buildGroups jkey ps
      = (dedupF (ps.map jkey)).map
          (fun k => (k, ps.filter (fun p => decide (jkey p = k)))) := by
  induction ps using List.reverseRecOn with
  | nil => rfl
  | append_singleton ps p ih =>
    have hfold : buildGroups jkey (ps ++ [p])
        = insertGroup (buildGroups jkey ps) (jkey p) p := by
      unfold buildGroups
      rw [List.foldl_append]
      rfl
    rw [hfold, ih]
    have hmap : (ps ++ [p]).map jkey = ps.map jkey ++ [jkey p] := by
      rw [List.map_append]
      rfl
    rw [hmap, dedupF_append_singleton]
    by_cases hk : jkey p ∈ ps.map jkey
    · simp only [hk, if_true]
      have hany : ((dedupF (ps.map jkey)).map
          (fun k => (k, ps.filter (fun q => decide (jkey q = k))))).any
            (fun g => decide (g.1 = jkey p)) = true := by
        rw [List.any_eq_true]
        refine ⟨(jkey p, ps.filter (fun q => decide (jkey q = jkey p))), ?_, by simp⟩
        exact List.mem_map.mpr ⟨jkey p, mem_dedupF.mpr hk, rfl⟩
      unfold insertGroup
      rw [if_pos hany, List.map_map]
      refine List.map_congr_left (fun k hkD => ?_)
      show (if k = jkey p
            then (k, ps.filter (fun q => decide (jkey q = k)) ++ [p])
            else (k, ps.filter (fun q => decide (jkey q = k))))
          = (k, (ps ++ [p]).filter (fun q => decide (jkey q = k)))
      rw [List.filter_append]
      by_cases hkk : k = jkey p
      · have hd : decide (jkey p = k) = true := by simp [hkk]
        have hone : [p].filter (fun q => decide (jkey q = k)) = [p] := by
          simp [List.filter, hd]
        rw [if_pos hkk, hone]
      · have hd : decide (jkey p = k) = false := by
          simp only [decide_eq_false_iff_not]
          exact fun h => hkk h.symm
        have hnone : [p].filter (fun q => decide (jkey q = k)) = [] := by
          simp [List.filter, hd]
        rw [if_neg hkk, hnone, List.append_nil]
    · simp only [hk, if_false]
      have hany : ((dedupF (ps.map jkey)).map
          (fun k => (k, ps.filter (fun q => decide (jkey q = k))))).any
            (fun g => decide (g.1 = jkey p)) = false := by
        rw [List.any_eq_false]
        rintro ⟨k, g⟩ hmem
        obtain ⟨k2, hk2, heq⟩ := List.mem_map.mp hmem
        simp only [Prod.mk.injEq] at heq
        have : k = k2 := heq.1.symm
        subst this
        simp only [decide_eq_true_eq]
        intro hkp
        exact hk (mem_dedupF.mp (hkp ▸ hk2))
      unfold insertGroup
      rw [if_neg (by rw [hany]; exact Bool.false_ne_true), List.map_append]
      congr 1
      · refine List.map_congr_left (fun k hkD => ?_)
        have hkne : jkey p ≠ k := by
          intro hkp
          exact hk (mem_dedupF.mp (hkp ▸ hkD))
        rw [List.filter_append]
        have hd : decide (jkey p = k) = false := by
          simp only [decide_eq_false_iff_not]
          exact hkne
        have hnone : [p].filter (fun q => decide (jkey q = k)) = [] := by
          simp [List.filter, hd]
        rw [hnone, List.append_nil]
      · simp only [List.map_cons, List.map_nil, List.filter_append]
        have h1 : ps.filter (fun q => decide (jkey q = jkey p)) = [] := by
          rw [List.filter_eq_nil_iff]
          intro q hq
          simp only [decide_eq_true_eq]
          intro hqp
          exact hk (hqp ▸ List.mem_map_of_mem jkey hq)
        have hd : decide (jkey p = jkey p) = true := by simp
        have h2 : [p].filter (fun q => decide (jkey q = jkey p)) = [p] := by
          simp [List.filter, hd]
        rw [h1, h2, List.nil_append]

theorem mem_objectValuesOf {α : Type} {g : α} {gs : List (String × α)} :
    g ∈ objectValuesOf gs ↔ ∃ k, (k, g) ∈ gs := by
  unfold objectValuesOf objectEntriesOrder
  rw [List.mem_map]
  constructor
  · rintro ⟨e, he, rfl⟩
    rw [List.mem_append, List.mem_insertionSort, List.mem_filter,
      List.mem_filter] at he
    rcases he with ⟨he, _⟩ | ⟨he, _⟩ <;> exact ⟨e.1, he⟩
  · rintro ⟨k, hk⟩
    refine ⟨(k, g), ?_, rfl⟩
    rw [List.mem_append, List.mem_insertionSort, List.mem_filter,
      List.mem_filter]
    by_cases hidx : (isArrayIndexStr k).isSome
    · exact Or.inl ⟨hk, hidx⟩
    · refine Or.inr ⟨hk, ?_⟩
      have hnone := Option.not_isSome_iff_eq_none.mp hidx
      simp [Option.isNone_iff_eq_none, hnone]

theorem objectValuesOf_of_no_index {α : Type} (gs : List (String × α))
    (h : ∀ g ∈ gs, (isArrayIndexStr g.1).isNone) :
    objectValuesOf gs = gs.map Prod.snd := by
  unfold objectValuesOf objectEntriesOrder
  have h1 : gs.filter (fun g => (isArrayIndexStr g.1).isSome) = [] := by
    rw [List.filter_eq_nil_iff]
    intro g hg
    have := h g hg
    simp only [Option.isNone_iff_eq_none] at this
    simp [this]
  have h2 : gs.filter (fun g => (isArrayIndexStr g.1).isNone) = gs := by
    rw [List.filter_eq_self]
    exact fun g hg => h g hg
  rw [h1, h2]
  rfl

/-- C4 (amended).  Two positions among the grouped rows are placed in the
same group if and only if their joined key strings
(`keys.map((k) => columns[k][i]).join('|')`) are equal.  Componentwise equal
key tuples always join to equal strings and hence share a group, but — as the
counterexample shows — distinct tuples may also collide once a value contains
the `'|'` separator, so equality of tuples cannot replace equality of joined
strings in this statement. -/
theorem C4_amended (cols : List (String × List Value)) (bys : List String)
    (len : Nat) (p q : Nat) (hp : p ∈ List.range len)
    (hq : q ∈ List.range len) :
    (∃ g ∈ groupByCol3 cols bys len, p ∈ g ∧ q ∈ g)
      ↔ jkeyOf cols bys p = jkeyOf cols bys q := by
  unfold groupByCol3
  rw [buildGroups_eq]
  constructor
  · rintro ⟨g, hg, hpg, hqg⟩
    obtain ⟨k, hk⟩ := mem_objectValuesOf.mp hg
    obtain ⟨k2, _, heq⟩ := List.mem_map.mp hk
    have hgk : g = (List.range len).filter
        (fun r => decide (jkeyOf cols bys r = k2)) := by
      have := congrArg Prod.snd heq
      simpa using this.symm
    rw [hgk] at hpg hqg
    have h1 := of_decide_eq_true (List.mem_filter.mp hpg).2
    have h2 := of_decide_eq_true (List.mem_filter.mp hqg).2
    rw [h1, h2]
  · intro hkey
    refine ⟨(List.range len).filter
        (fun r => decide (jkeyOf cols bys r = jkeyOf cols bys p)), ?_, ?_, ?_⟩
    · refine mem_objectValuesOf.mpr ⟨jkeyOf cols bys p, ?_⟩
      refine List.mem_map.mpr ⟨jkeyOf cols bys p, ?_, rfl⟩
      exact mem_dedupF.mpr (List.mem_map_of_mem (jkeyOf cols bys) hp)
    · exact List.mem_filter.mpr ⟨hp, by simp⟩
    · exact List.mem_filter.mpr ⟨hq, by simp [hkey]⟩

/-- Witness for C4 at a concrete input: in a two-row table with values
`"u"`, `"u"` in the single grouping column, both sides of the equivalence are
decided at positions 0 and 1. -/
theorem C4_witness :
    (∃ g ∈ groupByCol3 [("a", [Value.str "u", Value.str "u"])] ["a"] 2,
        0 ∈ g ∧ 1 ∈ g)
      ↔ jkeyOf [("a", [Value.str "u", Value.str "u"])] ["a"] 0
          = jkeyOf [("a", [Value.str "u", Value.str "u"])] ["a"] 1 :=
  C4_amended [("a", [Value.str "u", Value.str "u"])] ["a"] 2 0 1
    (by decide) (by decide)

/-- C5 (amended).  Whenever none of the joined key strings of the grouped
rows is an array-index property key, `Object.values` of the groups object
enumerates the groups in pure insertion order, and the groups therefore
appear in first-occurrence order of the distinct keys: the k-th group of the
result collects exactly the positions carrying the k-th distinct joined key
encountered in scan order.  (With array-index keys — e.g. grouping by a
column of small non-negative integers — those keys are enumerated first in
ascending numeric order instead, as the counterexample shows.) -/
theorem C5_amended (cols : List (String × List Value)) (bys : List String)
    (len : Nat)
    (h : ∀ p ∈ List.range len, (isArrayIndexStr (jkeyOf cols bys p)).isNone) :
    groupByCol3 cols bys len
      = (dedupF ((List.range len).map (jkeyOf cols bys))).map
          (fun k => (List.range len).filter
            (fun p => decide (jkeyOf cols bys p = k))) := by
  unfold groupByCol3
  rw [buildGroups_eq, objectValuesOf_of_no_index]
  · rw [List.map_map]
    rfl
  · intro g hg
    obtain ⟨k, hk, heq⟩ := List.mem_map.mp hg
    have hkmem : k ∈ (List.range len).map (jkeyOf cols bys) := mem_dedupF.mp hk
    obtain ⟨p, hp, hpk⟩ := List.mem_map.mp hkmem
    have hg1 : g.1 = k := by
      have := congrArg Prod.fst heq
      simpa using this.symm
    rw [hg1, ← hpk]
    exact h p hp

/-- Witness for C5 at a concrete input: grouping two rows whose single key
column holds the strings `"y"`, `"x"` (not array-index keys) yields the
groups in first-occurrence order. -/
theorem C5_witness :
    groupByCol3 [("a", [Value.str "y", Value.str "x"])] ["a"] 2
      = (dedupF ((List.range 2).map
          (jkeyOf [("a", [Value.str "y", Value.str "x"])] ["a"]))).map
          (fun k => (List.range 2).filter
            (fun p => decide
              (jkeyOf [("a", [Value.str "y", Value.str "x"])] ["a"] p = k))) :=
  C5_amended [("a", [Value.str "y", Value.str "x"])] ["a"] 2 (by decide)

/-! ## Evaluation lemmas for the pure query on well-formed tables -/

theorem alookup_mem {α : Type} {k : String} {v : α} :
    ∀ {l : List (String × α)}, alookup k l = some v → (k, v) ∈ l
  | [], h => by simp [alookup] at h
  | (c, w) :: rest, h => by
    by_cases hck : c = k
    · subst hck
      have hwv : w = v := by simpa [alookup] using h
      subst hwv
      exact List.mem_cons_self _ _
    · simp only [alookup, if_neg hck] at h
      exact List.mem_cons_of_mem _ (alookup_mem h)

theorem alookup_isSome_of_mem_keys {α : Type} {k : String} :
    ∀ {l : List (String × α)}, k ∈ l.map Prod.fst → (alookup k l).isSome
  | [], h => by simp at h
  | (c, w) :: rest, h => by
    by_cases hck : c = k
    · simp [alookup, hck]
    · simp only [List.map_cons, List.mem_cons] at h
      rcases h with h | h
    
      · exact absurd h.symm hck
      · simp only [alookup, if_neg hck]
        exact alookup_isSome_of_mem_keys h

theorem alookup_map_self {α : Type} (F : String → α) (k : String) :
    ∀ (cs : List String), k ∈ cs →
      alookup k (cs.map (fun c => (c, F c))) = some (F k)
  | [], h => by simp at h
  | c :: rest, h => by
    by_cases hck : c = k
    · subst hck
      simp [alookup]
    · have hk : k ∈ rest := by
        rcases List.mem_cons.mp h with h1 | h1
        · exact absurd h1.symm hck
        · exact h1
      simp only [List.map_cons, alookup, if_neg hck]
      exact alookup_map_self F k rest hk

theorem colProject_ok (t : DataTable) (indices : List Nat) (c : String)
    (h : (alookup c t.data).isSome) :
    colProject t.data c indices
      = .ok (indices.map (fun i => valueAt t c i)) := by
  obtain ⟨vs, hvs⟩ := Option.isSome_iff_exists.mp h
  unfold colProject valueAt
  rw [hvs]

theorem mapM_colProject (t : DataTable) (indices : List Nat) :
    ∀ (cs : List String), (∀ c ∈ cs, (alookup c t.data).isSome) →
      cs.mapM (fun k => (colProject t.data k indices).map (fun vs => (k, vs)))
        = .ok (cs.map (fun c => (c, indices.map (fun i => valueAt t c i))))
  | [], _ => rfl
  | c :: rest, h => by
    rw [List.mapM_cons, colProject_ok t indices c (h c (List.mem_cons_self c rest)),
      mapM_colProject t indices rest (fun c2 hc2 => h c2 (List.mem_cons_of_mem c hc2))]
    rfl

theorem columnsToRows_ok (cols : List (String × List Value)) (L : Nat)
    (hne : cols ≠ []) (hlen : ∀ p ∈ cols, p.2.length = L) :
    columnsToRows cols
      = .ok ((List.range L).map
          (fun i => cols.map (fun p => (p.1, p.2.getD i .undefV)))) := by
  match cols, hne with
  | (c0, v0) :: rest, _ =>
    have h0 : v0.length = L := hlen (c0, v0) (List.mem_cons_self _ _)
    show Except.ok ((List.range v0.length).map
        (fun i => ((c0, v0) :: rest).map (fun p => (p.1, p.2.getD i .undefV))))
      = Except.ok ((List.range L).map
        (fun i => ((c0, v0) :: rest).map (fun p => (p.1, p.2.getD i .undefV))))
    rw [h0]

theorem mkDataTable_rowCount :
    ∀ (rows : List RowObj), rows ≠ [] →
      ∃ r, mkDataTable rows = .ok r ∧ r.rowCount = rows.length
  | [], h => absurd rfl h
  | _ :: _, _ => ⟨_, rfl, rfl⟩

/-- The filtered row positions computed by the query for a given filter. -/
def filteredIndices (t : DataTable) (f : RowObj → Bool) : List Nat :=
  (List.range t.rowCount).filter (fun i => f (getRow t i))

theorem length_filteredIndices (t : DataTable) (f : RowObj → Bool) :
    ((getRowsOf t).filter f).length = (filteredIndices t f).length := by
  unfold getRowsOf filteredIndices
  rw [List.filter_map, List.length_map]
  rfl

theorem ok_bind {ε α β : Type} (a : α) (f : α → Except ε β) :
    (Except.ok a >>= f : Except ε β) = f a :=
  rfl

/-- C3 (amended).  On a well-formed table, when at least one row satisfies
the filter, `query(f)` succeeds and the result's row count equals the number
of rows satisfying `f`.  (When no row satisfies `f` the call instead fails
with a `TypeError` in the result constructor, as the counterexample shows, so
the zero-match case of the claim is dropped.) -/
theorem C3_amended (t : DataTable) (f : RowObj → Bool)
    (hwf : WellFormed t) (hpos : 0 < ((getRowsOf t).filter f).length) :
    ∃ r, (queryCol3 t (some f) none [] none).2 = .ok r ∧
      r.rowCount = ((getRowsOf t).filter f).length := by
  obtain ⟨hsync, hshape, hcols⟩ := hwf
  have hcount := length_filteredIndices t f
  have hsome : ∀ c ∈ t.columns, (alookup c t.data).isSome := by
    intro c hc
    exact alookup_isSome_of_mem_keys (by rwa [hsync])
  have hbase : queryBase t none (filteredIndices t f)
      = .ok (t.columns.map
          (fun c => (c, (filteredIndices t f).map (fun i => valueAt t c i)))) := by
    unfold queryBase querySelCols
    exact mapM_colProject t (filteredIndices t f) t.columns hsome
  have hq : (queryCol3 t (some f) none [] none).2
      = (queryBase t none (filteredIndices t f) >>= fun base =>
          queryGroup none (filteredIndices t f)
              (queryAssign t [] (filteredIndices t f) base)
            >>= fun grouped => columnsToRows grouped >>= mkDataTable) := rfl
  have hBne : t.columns.map
      (fun c => (c, (filteredIndices t f).map (fun i => valueAt t c i))) ≠ [] := by
    intro h
    exact hcols (by simpa using h)
  have hBlen : ∀ p ∈ t.columns.map
      (fun c => (c, (filteredIndices t f).map (fun i => valueAt t c i))),
      p.2.length = (filteredIndices t f).length := by
    intro p hp
    obtain ⟨c, _, rfl⟩ := List.mem_map.mp hp
    exact List.length_map _ _
  have h1 : (queryCol3 t (some f) none [] none).2
      = (columnsToRows (t.columns.map
          (fun c => (c, (filteredIndices t f).map (fun i => valueAt t c i))))
            >>= mkDataTable) := by
    rw [hq, hbase, ok_bind]
    rfl
  have h2 : (queryCol3 t (some f) none [] none).2
      = mkDataTable ((List.range (filteredIndices t f).length).map
          (fun i => (t.columns.map
              (fun c => (c, (filteredIndices t f).map (fun j => valueAt t c j)))).map
            (fun p => (p.1, p.2.getD i .undefV)))) := by
    rw [h1, columnsToRows_ok _ (filteredIndices t f).length hBne hBlen, ok_bind]
  have hrne : (List.range (filteredIndices t f).length).map
      (fun i => (t.columns.map
          (fun c => (c, (filteredIndices t f).map (fun j => valueAt t c j)))).map
        (fun p => (p.1, p.2.getD i .undefV))) ≠ [] := by
    have hlen0 : (filteredIndices t f).length ≠ 0 := by
      rw [← hcount]
      omega
    intro h
    rw [List.map_eq_nil_iff, List.range_eq_nil] at h
    exact hlen0 h
  obtain ⟨r, hr, hrc⟩ := mkDataTable_rowCount _ hrne
  refine ⟨r, by rw [h2]; exact hr, ?_⟩
  rw [hrc, List.length_map, List.length_range, ← hcount]

/-- Witness for C3 at the concrete table `exT2` with a filter satisfied by
both rows. -/
theorem C3_witness :
    ∃ r, (queryCol3 exT2 (some (fun _ => true)) none [] none).2 = .ok r ∧
      r.rowCount = ((getRowsOf exT2).filter (fun _ => true)).length :=
  C3_amended exT2 (fun _ => true) (by decide) (by decide)

/-! ## C6: grouped query row count -/

/-- The joined rendering `values.join('|')` of a key tuple; per
`Array.prototype.join`, `null` and `undefined` elements render as the empty
string. -/
def joinTup (vs : List Value) : String :=
  String.intercalate "|" (vs.map joinElemStr)

theorem dedupF_map_inj {α β : Type} [DecidableEq α] [DecidableEq β] (F : α → β) :
    ∀ (l : List α), (∀ x ∈ l, ∀ y ∈ l, F x = F y → x = y) →
      dedupF (l.map F) = (dedupF l).map F
  | [], _ => rfl
  | a :: l, hinj => by
    show F a :: (dedupF (l.map F)).filter (fun b => decide (b ≠ F a))
        = F a :: ((dedupF l).filter (fun b => decide (b ≠ a))).map F
    rw [dedupF_map_inj F l (fun x hx y hy h =>
      hinj x (List.mem_cons_of_mem _ hx) y (List.mem_cons_of_mem _ hy) h)]
    rw [List.filter_map]
    congr 1
    apply congrArg
    apply List.filter_congr
    intro b hb
    have hbl : b ∈ l := mem_dedupF.mp hb
    show decide (F b ≠ F a) = decide (b ≠ a)
    by_cases hba : b = a
    · subst hba
      simp
    · have hFba : F b ≠ F a := fun h =>
        hba (hinj b (List.mem_cons_of_mem _ hbl) a (List.mem_cons_self _ _) h)
      simp [hba, hFba]

theorem length_objectValuesOf {α : Type} (gs : List (String × α)) :
    (objectValuesOf gs).length = gs.length := by
  unfold objectValuesOf objectEntriesOrder
  rw [List.length_map, List.length_append, List.length_insertionSort]
  induction gs with
  | nil => rfl
  | cons g gs ih =>
    by_cases h : (isArrayIndexStr g.1).isSome
    · have h2 : (isArrayIndexStr g.1).isNone = false := by
        cases hidx : isArrayIndexStr g.1
        · rw [hidx] at h
          simp at h
        · rfl
      simp [List.filter_cons, h, h2]
      omega
    · have h1 : (isArrayIndexStr g.1).isSome = false := by
        cases hidx : isArrayIndexStr g.1
        · rfl
        · rw [hidx] at h
          simp at h
      have h2 : (isArrayIndexStr g.1).isNone = true := by
        cases hidx : isArrayIndexStr g.1
        · rfl
        · rw [hidx] at h1
          simp at h1
      simp [List.filter_cons, h1, h2]
      omega

theorem length_groupByCol3 (cols : List (String × List Value))
    (bys : List String) (len : Nat) :
    (groupByCol3 cols bys len).length
      = (dedupF ((List.range len).map (jkeyOf cols bys))).length := by
  unfold groupByCol3
  rw [length_objectValuesOf, buildGroups_eq, List.length_map]

theorem jkeyOf_base (t : DataTable) (bks : List String) (idx : List Nat)
    (p : Nat) (hp : p < idx.length) (hby : ∀ k ∈ bks, k ∈ t.columns) :
    jkeyOf (t.columns.map (fun c => (c, idx.map (fun i => valueAt t c i)))) bks p
      = joinTup (keyTuple t bks (idx.getD p 0)) := by
  unfold jkeyOf joinTup keyTuple
  rw [List.map_map]
  apply congrArg
  apply List.map_congr_left
  intro k hk
  rw [alookup_map_self (fun c => idx.map (fun i => valueAt t c i)) k
    t.columns (hby k hk)]
  show joinElemStr ((idx.map (fun i => valueAt t k i)).getD p .undefV)
      = joinElemStr (valueAt t k (idx.getD p 0))
  have hmp : p < (idx.map (fun i => valueAt t k i)).length := by
    rw [List.length_map]
    exact hp
  rw [List.getD_eq_getElem _ _ hmp, List.getElem_map,
    List.getD_eq_getElem _ _ hp]

/-- C6 (amended).  On a well-formed table, a grouped query (filter plus `by`,
no select/assign) over existing grouping columns, with at least one row
passing the filter, returns a table with exactly one row per distinct
grouping-key tuple of the filtered rows — provided the `'|'`-joined string
renderings of the occurring key tuples are injective (distinct tuples whose
joined renderings collide are merged into one group, and with no matching
rows the construction fails, as the counterexamples show). -/
theorem C6_amended (t : DataTable) (f : RowObj → Bool) (bks : List String)
    (hwf : WellFormed t) (hby : ∀ k ∈ bks, k ∈ t.columns)
    (hne : filteredIndices t f ≠ [])
    (hinj : ∀ i ∈ filteredIndices t f, ∀ j ∈ filteredIndices t f,
      joinTup (keyTuple t bks i) = joinTup (keyTuple t bks j) →
      keyTuple t bks i = keyTuple t bks j) :
    ∃ r, (queryCol3 t (some f) none [] (some bks)).2 = .ok r ∧
      r.rowCount
        = (dedupF ((filteredIndices t f).map
            (fun i => keyTuple t bks i))).length := by
  obtain ⟨hsync, hshape, hcols⟩ := hwf
  have hsome : ∀ c ∈ t.columns, (alookup c t.data).isSome := by
    intro c hc
    exact alookup_isSome_of_mem_keys (by rwa [hsync])
  set idx := filteredIndices t f with hidxeq
  set B := t.columns.map (fun c => (c, idx.map (fun i => valueAt t c i)))
    with hBeq
  have hbase : queryBase t none idx = .ok B := by
    unfold queryBase querySelCols
    exact mapM_colProject t idx t.columns hsome
  have hanyf : bks.any (fun k => (alookup k B).isNone) = false := by
    rw [List.any_eq_false]
    intro k hk
    rw [hBeq, alookup_map_self _ k t.columns (hby k hk)]
    simp
  have hq : (queryCol3 t (some f) none [] (some bks)).2
      = (queryBase t none idx >>= fun base =>
          queryGroup (some bks) idx (queryAssign t [] idx base)
            >>= fun grouped => columnsToRows grouped >>= mkDataTable) := rfl
  have hgroupeq : queryGroup (some bks) idx B
      = .ok (B.map (fun p => (p.1, (groupByCol3 B bks idx.length).map
          (fun g => p.2.getD (g.headD 0) .undefV)))) := by
    show (if idx.length ≠ 0 ∧ bks.any (fun k => (alookup k B).isNone) then
          (Except.error JsError.typeError : Except JsError _)
        else .ok (B.map (fun p => (p.1, (groupByCol3 B bks idx.length).map
          (fun g => p.2.getD (g.headD 0) .undefV)))))
      = .ok (B.map (fun p => (p.1, (groupByCol3 B bks idx.length).map
          (fun g => p.2.getD (g.headD 0) .undefV))))
    rw [if_neg]
    intro hcond
    rw [hanyf] at hcond
    exact absurd hcond.2 (by simp)
  have h1 : (queryCol3 t (some f) none [] (some bks)).2
      = (columnsToRows (B.map (fun p => (p.1, (groupByCol3 B bks idx.length).map
          (fun g => p.2.getD (g.headD 0) .undefV)))) >>= mkDataTable) := by
    rw [hq, hbase, ok_bind]
    show (queryGroup (some bks) idx B >>= fun grouped =>
        columnsToRows grouped >>= mkDataTable) = _
    rw [hgroupeq, ok_bind]
  have hBmapne : B.map (fun p => (p.1, (groupByCol3 B bks idx.length).map
      (fun g => p.2.getD (g.headD 0) .undefV))) ≠ [] := by
    rw [hBeq]
    intro h
    simp only [List.map_map, List.map_eq_nil_iff] at h
    exact hcols h
  have hBmaplen : ∀ p ∈ B.map (fun p => (p.1, (groupByCol3 B bks idx.length).map
      (fun g => p.2.getD (g.headD 0) .undefV))),
      p.2.length = (groupByCol3 B bks idx.length).length := by
    intro p hp
    obtain ⟨q, _, rfl⟩ := List.mem_map.mp hp
    exact List.length_map _ _
  have h2 : (queryCol3 t (some f) none [] (some bks)).2
      = mkDataTable ((List.range (groupByCol3 B bks idx.length).length).map
          (fun i => (B.map (fun p => (p.1, (groupByCol3 B bks idx.length).map
              (fun g => p.2.getD (g.headD 0) .undefV)))).map
            (fun p => (p.1, p.2.getD i .undefV)))) := by
    rw [h1, columnsToRows_ok _ _ hBmapne hBmaplen, ok_bind]
  have hidxlen : idx.length ≠ 0 := by
    intro h
    exact hne (List.length_eq_zero.mp h)
  have hgslen : (groupByCol3 B bks idx.length).length
      = (dedupF (idx.map (fun i => keyTuple t bks i))).length := by
    rw [length_groupByCol3]
    have hmaps : (List.range idx.length).map (jkeyOf B bks)
        = (idx.map (fun i => keyTuple t bks i)).map joinTup := by
      apply List.ext_getElem
      · simp
      · intro p h1p h2p
        have hp : p < idx.length := by simpa using h1p
        rw [List.getElem_map, List.getElem_range, List.getElem_map,
          List.getElem_map, hBeq, jkeyOf_base t bks idx p hp hby,
          List.getD_eq_getElem _ _ hp]
    rw [hmaps]
    have hinj2 : ∀ x ∈ idx.map (fun i => keyTuple t bks i),
        ∀ y ∈ idx.map (fun i => keyTuple t bks i),
        joinTup x = joinTup y → x = y := by
      intro x hx y hy hxy
      obtain ⟨i, hi, rfl⟩ := List.mem_map.mp hx
      obtain ⟨j, hj, rfl⟩ := List.mem_map.mp hy
      exact hinj i hi j hj hxy
    rw [dedupF_map_inj joinTup _ hinj2, List.length_map]
  have hgs0 : (groupByCol3 B bks idx.length).length ≠ 0 := by
    rw [hgslen]
    have : idx.map (fun i => keyTuple t bks i) ≠ [] := by
      intro h
      exact hne (List.map_eq_nil_iff.mp h)
    obtain ⟨a, rest, hcons⟩ := List.exists_cons_of_ne_nil this
    rw [hcons]
    simp [dedupF]
  have hrne : (List.range (groupByCol3 B bks idx.length).length).map
      (fun i => (B.map (fun p => (p.1, (groupByCol3 B bks idx.length).map
          (fun g => p.2.getD (g.headD 0) .undefV)))).map
        (fun p => (p.1, p.2.getD i .undefV))) ≠ [] := by
    intro h
    rw [List.map_eq_nil_iff, List.range_eq_nil] at h
    exact hgs0 h
  obtain ⟨r, hr, hrc⟩ := mkDataTable_rowCount _ hrne
  refine ⟨r, by rw [h2]; exact hr, ?_⟩
  rw [hrc, List.length_map, List.length_range, hgslen]

/-- A three-row table with a repeated group key, used to witness `C6_amended`
at a concrete input. -/
def exGrp : DataTable :=
  { data := [("g", [.str "x", .str "y", .str "x"]),
             ("v", [.num 1, .num 2, .num 3])],
    columns := ["g", "v"], rowCount := 3, keys := [] }

/-- Witness for C6: grouping `exGrp` by `g` collapses the three filtered rows
onto the two distinct key tuples. -/
theorem C6_witness :
    ∃ r, (queryCol3 exGrp (some (fun _ => true)) none [] (some ["g"])).2
        = .ok r ∧
      r.rowCount = (dedupF ((filteredIndices exGrp (fun _ => true)).map
          (fun i => keyTuple exGrp ["g"] i))).length :=
  C6_amended exGrp (fun _ => true) ["g"] (by decide) (by decide) (by decide)
    (by decide)

/-- C8 (amended).  In the first class of DT_col5.ts, a query without a
grouping argument whose select list names columns absent from the table
always fails with the unknown-column error thrown by `checkColumnsExist`
(naming exactly the missing columns), before any result is produced.  (The
DT_col3.ts select branch instead fails with an unrelated `TypeError`, and
with a grouping argument the select list is never checked, as the
counterexample shows.) -/
theorem C8_amended (t : DataTable5) (i : Option (RowObj → Nat → Bool))
    (sel : List String) (asn : AssignList)
    (hmiss : sel.filter (fun c => decide (c ∉ t.columns)) ≠ []) :
    query5 t i (some sel) asn none
      = .error (.thrown ("Columns do not exist: "
          ++ String.intercalate ", "
            (sel.filter (fun c => decide (c ∉ t.columns))))) := by
  have hcheck : checkColumnsExist5 t sel
      = .error (.thrown ("Columns do not exist: "
          ++ String.intercalate ", "
            (sel.filter (fun c => decide (c ∉ t.columns))))) := by
    unfold checkColumnsExist5
    rw [if_neg]
    simpa using hmiss
  simp only [query5, toRows5]
  rw [hcheck]
  rfl

/-- A one-row DT_col5-style table with the single column `a`, used to witness
`C8_amended` at a concrete input. -/
def exT5 : DataTable5 :=
  { data := [[("a", .num 1)]], columns := ["a"], rowCount := 1 }

/-- Witness for C8 at the concrete table `exT5` with the unknown columns
`"zzz"` and `"qqq"` in the select list. -/
theorem C8_witness :
    query5 exT5 none (some ["zzz", "a", "qqq"]) [] none
      = .error (.thrown ("Columns do not exist: "
          ++ String.intercalate ", "
            (["zzz", "a", "qqq"].filter
              (fun c => decide (c ∉ exT5.columns))))) :=
  C8_amended exT5 none ["zzz", "a", "qqq"] [] (by decide)

/-! ## C9: lookups on melt rows -/

theorem alookup_append_left {α : Type} {k : String} {v : α}
    {l1 : List (String × α)} (l2 : List (String × α))
    (h : alookup k l1 = some v) : alookup k (l1 ++ l2) = some v := by
  induction l1 with
  | nil => simp [alookup] at h
  | cons p rest ih =>
    by_cases hpk : p.1 = k
    · simpa [alookup, hpk] using h
    · rw [List.cons_append]
      show alookup k (p :: (rest ++ l2)) = some v
      cases p with
      | mk c w =>
        simp only [alookup, if_neg hpk] at h ⊢
        exact ih h

theorem alookup_append_right {α : Type} {k : String}
    {l1 l2 : List (String × α)} (h : ∀ p ∈ l1, p.1 ≠ k) :
    alookup k (l1 ++ l2) = alookup k l2 := by
  induction l1 with
  | nil => rfl
  | cons p rest ih =>
    cases p with
    | mk c w =>
      rw [List.cons_append]
      show alookup k ((c, w) :: (rest ++ l2)) = alookup k l2
      have hck : c ≠ k := h (c, w) (List.mem_cons_self _ _)
      simp only [alookup, if_neg hck]
      exact ih (fun p hp => h p (List.mem_cons_of_mem _ hp))

theorem rowGetS_mkLong_id {ids : List String} {row : RowObj} {m : String}
    {c : String} (hc : c ∈ ids) :
    rowGetS (mkLong ids row m) c = rowGetS row c := by
  unfold rowGetS mkLong
  rw [alookup_append_left _ (alookup_map_self (fun c2 => rowGetS row c2) c ids hc)]
  rfl

theorem rowGetS_mkLong_variable {ids : List String} {row : RowObj}
    {m : String} (hvar : "variable" ∉ ids) :
    rowGetS (mkLong ids row m) "variable" = .str m := by
  unfold rowGetS mkLong
  rw [alookup_append_right]
  · rfl
  · intro p hp
    obtain ⟨c, hc, rfl⟩ := List.mem_map.mp hp
    exact fun h => hvar (h ▸ hc)

theorem rowGetS_mkLong_value {ids : List String} {row : RowObj} {m : String}
    (hval : "value" ∉ ids) :
    rowGetS (mkLong ids row m) "value" = rowGetS row m := by
  unfold rowGetS mkLong
  rw [alookup_append_right]
  · rfl
  · intro p hp
    obtain ⟨c, hc, rfl⟩ := List.mem_map.mp hp
    exact fun h => hval (h ▸ hc)

theorem idTupleS_mkLong {ids : List String} {row : RowObj} {m : String} :
    idTupleS ids (mkLong ids row m) = idTupleS ids row := by
  unfold idTupleS
  exact List.map_congr_left (fun c hc => rowGetS_mkLong_id hc)

/-! ## C9: first-occurrence deduplication over the melt structure -/

theorem dedupF_append_subset {α : Type} [DecidableEq α] (l1 : List α) :
    ∀ (l2 : List α), (∀ b ∈ l2, b ∈ l1) → dedupF (l1 ++ l2) = dedupF l1 := by
  intro l2
  induction l2 using List.reverseRecOn with
  | nil => intro _; rw [List.append_nil]
  | append_singleton z b ih =>
    intro hsub
    have hb : b ∈ l1 := hsub b (by simp)
    rw [← List.append_assoc, dedupF_append_singleton,
      if_pos (List.mem_append.mpr (Or.inl hb))]
    exact ih (fun x hx => hsub x (by simp [hx]))

theorem dedupF_replicate_append {α : Type} [DecidableEq α] (a : α) :
    ∀ (m : Nat), 0 < m → ∀ (rest : List α),
      dedupF (List.replicate m a ++ rest) = dedupF (a :: rest) := by
  intro m
  induction m with
  | zero => omega
  | succ m ih =>
    intro _ rest
    by_cases hm : 0 < m
    · have hrep : List.replicate (m + 1) a ++ rest
          = a :: (List.replicate m a ++ rest) := by
        rw [List.replicate_succ, List.cons_append]
      rw [hrep]
      show a :: (dedupF (List.replicate m a ++ rest)).filter
          (fun b => decide (b ≠ a)) = dedupF (a :: rest)
      rw [ih hm rest]
      show a :: (a :: (dedupF rest).filter (fun b => decide (b ≠ a))).filter
          (fun b => decide (b ≠ a)) = dedupF (a :: rest)
      rw [List.filter_cons]
      have hda : decide (a ≠ a) = false := by simp
      rw [hda]
      simp only [Bool.false_eq_true, if_false, List.filter_filter]
      show a :: List.filter (fun b => decide (b ≠ a) && decide (b ≠ a))
          (dedupF rest) = a :: (dedupF rest).filter (fun b => decide (b ≠ a))
      congr 1
      apply List.filter_congr
      intro b _
      cases hba : decide (b ≠ a) <;> simp
    · have hm0 : m = 0 := by omega
      subst hm0
      rfl

theorem dedupF_flatMap_replicate {α β : Type} [DecidableEq β] (f : α → β)
    (m : Nat) (hm : 0 < m) :
    ∀ (l : List α),
      dedupF (l.flatMap (fun x => List.replicate m (f x)))
        = dedupF (l.map f)
  | [] => rfl
  | x :: l => by
    rw [List.flatMap_cons, dedupF_replicate_append (f x) m hm]
    show f x :: (dedupF (l.flatMap (fun y => List.replicate m (f y)))).filter
        (fun b => decide (b ≠ f x))
      = f x :: (dedupF (l.map f)).filter (fun b => decide (b ≠ f x))
    rw [dedupF_flatMap_replicate f m hm l]

theorem dedupF_flatMap_const {α β : Type} [DecidableEq β] (ys : List β) :
    ∀ (l : List α), l ≠ [] →
      dedupF (l.flatMap (fun _ => ys)) = dedupF ys
  | [], h => absurd rfl h
  | x :: l, _ => by
    rw [List.flatMap_cons]
    apply dedupF_append_subset
    intro b hb
    obtain ⟨y, _, hy⟩ := List.mem_flatMap.mp hb
    exact hy

theorem filter_eq_singleton_of_nodup {α : Type} [DecidableEq α] {a : α} :
    ∀ {l : List α}, l.Nodup → a ∈ l →
      l.filter (fun x => decide (x = a)) = [a]
  | [], _, hmem => by simp at hmem
  | x :: l, hnd, hmem => by
    by_cases hxa : x = a
    · subst hxa
      have hx : x ∉ l := (List.nodup_cons.mp hnd).1
      rw [List.filter_cons, if_pos (by simp)]
      have hrest : l.filter (fun y => decide (y = x)) = [] := by
        rw [List.filter_eq_nil_iff]
        intro y hy
        simp only [decide_eq_true_eq]
        exact fun h => hx (h ▸ hy)
      rw [hrest]
    · have hal : a ∈ l := by
        rcases List.mem_cons.mp hmem with h | h
        · exact absurd h.symm hxa
        · exact h
      rw [List.filter_cons, if_neg (by simpa using hxa)]
      exact filter_eq_singleton_of_nodup (List.nodup_cons.mp hnd).2 hal

theorem count_eq_one_of_nodup_map {α β : Type} [DecidableEq α]
    [DecidableEq β] {T : List α} {g : α → β} {x : α}
    (hnd : (T.map g).Nodup) (hx : x ∈ T) : T.count x = 1 := by
  have h1 : T.count x ≤ (T.map g).count (g x) := List.count_le_count_map T g x
  have h2 : (T.map g).count (g x) ≤ 1 := List.nodup_iff_count_le_one.mp hnd _
  have h3 : 0 < T.count x := List.count_pos_iff.mpr hx
  omega

theorem flatMap_eq_of_unique {α β : Type} [DecidableEq α] :
    ∀ (T : List α) (F : α → List β) (x : α), x ∈ T → T.count x = 1 →
      (∀ y ∈ T, y ≠ x → F y = []) → T.flatMap F = F x
  | [], _, _, hx, _, _ => by simp at hx
  | a :: T, F, x, hx, hcnt, hother => by
    rw [List.flatMap_cons]
    by_cases hax : a = x
    · subst hax
      have hcnt2 : T.count a = 0 := by
        rw [List.count_cons_self] at hcnt
        omega
      have hnot : a ∉ T := List.count_eq_zero.mp hcnt2
      have hnil : T.flatMap F = [] := by
        rw [List.flatMap_eq_nil_iff]
        intro y hy
        exact hother y (List.mem_cons_of_mem _ hy) (fun h => hnot (h ▸ hy))
      rw [hnil, List.append_nil]
    · have hFa : F a = [] :=
        hother a (List.mem_cons_self _ _) hax
      have hxT : x ∈ T := by
        rcases List.mem_cons.mp hx with h | h
        · exact absurd h.symm hax
        · exact h
      have hcnt2 : T.count x = 1 := by
        rw [List.count_cons_of_ne (fun h => hax h.symm)] at hcnt
        exact hcnt
      rw [hFa, List.nil_append]
      exact flatMap_eq_of_unique T F x hxT hcnt2
        (fun y hy hyx => hother y (List.mem_cons_of_mem _ hy) hyx)

/-! ## C9: the melt structure as seen by dcast -/

theorem melt_combos (T : List RowObj) (ids ms : List String) (hm : ms ≠ [])
    (huniq : (T.map (idTupleS ids)).Nodup) :
    dedupF ((meltS T ids ms).map (idTupleS ids)) = T.map (idTupleS ids) := by
  unfold meltS
  rw [List.map_flatMap]
  have hin : ∀ row : RowObj,
      List.map (idTupleS ids) (ms.map (fun m => mkLong ids row m))
        = List.replicate ms.length (idTupleS ids row) := by
    intro row
    rw [List.map_map]
    have hc : (idTupleS ids ∘ fun m => mkLong ids row m)
        = Function.const String (idTupleS ids row) := by
      funext m
      exact idTupleS_mkLong
    rw [hc, List.map_const]
  simp only [hin]
  rw [dedupF_flatMap_replicate (fun row => idTupleS ids row) ms.length
    (List.length_pos.mpr hm) T]
  exact dedupF_eq_self_of_nodup huniq

theorem melt_vars (T : List RowObj) (ids ms : List String) (hT : T ≠ [])
    (hms : ms.Nodup) (hvar : "variable" ∉ ids) :
    dedupF ((meltS T ids ms).map (fun row => rowGetS row "variable"))
      = ms.map Value.str := by
  unfold meltS
  rw [List.map_flatMap]
  have hin : ∀ row : RowObj,
      List.map (fun r => rowGetS r "variable") (ms.map (fun m => mkLong ids row m))
        = ms.map Value.str := by
    intro row
    rw [List.map_map]
    apply List.map_congr_left
    intro m _
    exact rowGetS_mkLong_variable hvar
  simp only [hin]
  rw [dedupF_flatMap_const (ms.map Value.str) T hT]
  apply dedupF_eq_self_of_nodup
  exact hms.map (fun a b h => Value.str.inj h)

theorem melt_cell (T : List RowObj) (ids ms : List String)
    (hvar : "variable" ∉ ids) (hms : ms.Nodup)
    (huniq : (T.map (idTupleS ids)).Nodup)
    {row : RowObj} (hrow : row ∈ T) {m : String} (hm : m ∈ ms) :
    dcastCell (meltS T ids ms) ids "variable" (idTupleS ids row) (.str m)
      = [mkLong ids row m] := by
  unfold dcastCell meltS
  rw [List.filter_flatMap]
  rw [flatMap_eq_of_unique T _ row hrow
    (count_eq_one_of_nodup_map huniq hrow) ?hother]
  case hother =>
    intro y hy hyx
    rw [List.filter_eq_nil_iff]
    intro r hr
    obtain ⟨m2, _, rfl⟩ := List.mem_map.mp hr
    simp only [decide_eq_true_eq]
    rintro ⟨htup, _⟩
    rw [idTupleS_mkLong] at htup
    exact hyx (List.inj_on_of_nodup_map huniq hy hrow htup)
  rw [List.filter_map]
  have hfil : ms.filter ((fun r => decide (idTupleS ids r = idTupleS ids row
        ∧ rowGetS r "variable" = Value.str m)) ∘ fun m2 => mkLong ids row m2)
      = ms.filter (fun m2 => decide (m2 = m)) := by
    apply List.filter_congr
    intro m2 _
    show decide (idTupleS ids (mkLong ids row m2) = idTupleS ids row
        ∧ rowGetS (mkLong ids row m2) "variable" = Value.str m)
      = decide (m2 = m)
    rw [decide_eq_decide]
    constructor
    · rintro ⟨_, hv⟩
      rw [rowGetS_mkLong_variable hvar] at hv
      exact Value.str.inj hv
    · rintro rfl
      exact ⟨by rw [idTupleS_mkLong], by rw [rowGetS_mkLong_variable hvar]⟩
  rw [hfil, filter_eq_singleton_of_nodup hms hm]
  rfl

theorem zip_self_map {α β : Type} (f : α → β) :
    ∀ (l : List α), l.zip (l.map f) = l.map (fun a => (a, f a))
  | [] => rfl
  | a :: l => by
    rw [List.map_cons, List.zip_cons_cons, zip_self_map f l, List.map_cons]

/-- C9.  Round-trip law of the reshape engine (spec section 4.5), over the
spec-modelled `melt`/`dcast`: for a nonempty table with a nonempty
duplicate-free list of measure columns, identifier columns not named
`variable` or `value`, and no duplicate identifier-combinations,
`dcast(melt(T, ids, measures), ids, "variable", "value")` reproduces `T`
restricted to the identifier and measure columns. -/
theorem C9_roundtrip (T : List RowObj) (ids ms : List String)
    (hT : T ≠ []) (hm : ms ≠ []) (hms : ms.Nodup)
    (hvar : "variable" ∉ ids) (hval : "value" ∉ ids)
    (huniq : (T.map (idTupleS ids)).Nodup) :
    dcastS (meltS T ids ms) ids "variable" "value"
      = .ok (restrictRows T (ids ++ ms)) := by
  have hcombos := melt_combos T ids ms hm huniq
  have hvars := melt_vars T ids ms hT hms hvar
  unfold dcastS
  rw [hcombos, hvars, if_neg]
  · apply congrArg
    rw [List.map_map]
    unfold restrictRows
    apply List.map_congr_left
    intro row hrow
    show ids.zip (idTupleS ids row)
        ++ (ms.map Value.str).map (fun v =>
          (toStringJS v,
            match dcastCell (meltS T ids ms) ids "variable"
                (idTupleS ids row) v with
            | [r] => rowGetS r "value"
            | _ => Value.nullV))
      = (ids ++ ms).map (fun c => (c, rowGetS row c))
    rw [List.map_append]
    have hpart1 : ids.zip (idTupleS ids row)
        = ids.map (fun c => (c, rowGetS row c)) := by
      unfold idTupleS
      rw [zip_self_map]
    have hpart2 : (ms.map Value.str).map (fun v =>
        (toStringJS v,
          match dcastCell (meltS T ids ms) ids "variable"
              (idTupleS ids row) v with
          | [r] => rowGetS r "value"
          | _ => Value.nullV))
        = ms.map (fun c => (c, rowGetS row c)) := by
      rw [List.map_map]
      apply List.map_congr_left
      intro m hmm
      show (toStringJS (Value.str m),
          match dcastCell (meltS T ids ms) ids "variable"
              (idTupleS ids row) (Value.str m) with
          | [r] => rowGetS r "value"
          | _ => Value.nullV)
        = (m, rowGetS row m)
      rw [melt_cell T ids ms hvar hms huniq hrow hmm]
      show (m, rowGetS (mkLong ids row m) "value") = (m, rowGetS row m)
      rw [rowGetS_mkLong_value hval]
    rw [hpart1, hpart2]
  · rw [List.any_eq_true]
    rintro ⟨combo, hcombo, hv⟩
    rw [List.any_eq_true] at hv
    obtain ⟨v, hvmem, hlen⟩ := hv
    obtain ⟨row, hrow, rfl⟩ := List.mem_map.mp hcombo
    obtain ⟨m, hmm, rfl⟩ := List.mem_map.mp hvmem
    rw [melt_cell T ids ms hvar hms huniq hrow hmm] at hlen
    simp at hlen

/-- A two-row wide table used to witness the reshape round trip. -/
def exT9 : List RowObj :=
  [[("id", .num 1), ("x1", .num 10), ("x2", .num 20)],
   [("id", .num 2), ("x1", .num 30), ("x2", .num 40)]]

/-- Witness for C9 at the concrete table `exT9` with identifier `id` and
measures `x1`, `x2`. -/
theorem C9_witness :
    dcastS (meltS exT9 ["id"] ["x1", "x2"]) ["id"] "variable" "value"
      = .ok (restrictRows exT9 (["id"] ++ ["x1", "x2"])) :=
  C9_roundtrip exT9 ["id"] ["x1", "x2"] (by decide) (by decide) (by decide)
    (by decide) (by decide) (by decide)
